import Mathlib

/-!
Verification of the Boston Housing API service (`src/main.py`) and its data
loader (`src/load_data.py`).  Python floats are modelled as exact rationals,
the SQLite-backed `homes` table as a list of rows paired with the next
surrogate id the database will assign, the SQLAlchemy query builder as a
small `Query` structure whose `all` method materialises the rows, and the
pre-trained model artifact as an opaque function parameter from the feature
vector to a scalar.
-/

namespace BostonHousing

/-- A row of the `homes` table (SQLAlchemy model `Home`, `main.py` lines
18-28): a surrogate integer id plus eight non-null numeric columns. -/
structure Home where
  id : ℕ
  rm : ℚ
  lstat : ℚ
  dis : ℚ
  tax : ℚ
  ptratio : ℚ
  age : ℚ
  indus : ℚ
  medv : ℚ
deriving DecidableEq

/-- Pydantic schema `HomeBase` (`main.py` lines 35-43): the seven predictive
features, in declaration order. -/
structure HomeBase where
  rm : ℚ
  lstat : ℚ
  dis : ℚ
  tax : ℚ
  ptratio : ℚ
  age : ℚ
  indus : ℚ
deriving DecidableEq

/-- Pydantic schema `HomeCreate` (`main.py` lines 45-46): the features plus
the actual median value. -/
structure HomeCreate extends HomeBase where
  medv : ℚ
deriving DecidableEq

/-- Pydantic schema `Prediction` (`main.py` lines 57-58). -/
structure Prediction where
  predicted_price_dh : ℚ
deriving DecidableEq

/-- An HTTP error raised via `HTTPException`. -/
structure HTTPError where
  status_code : ℕ
  detail : String
deriving DecidableEq

/-- State of the SQLite `homes` table: the stored rows in the table's natural
(insertion) order, and the next surrogate id the database will assign. -/
structure DBState where
  homes : List Home
  nextId : ℕ
deriving DecidableEq

/-- An SQLAlchemy query over the `homes` table: the source rows (already
rearranged by any `order_by` applied) together with the pending `offset`
and `limit`. -/
structure Query where
  rows : List Home
  off : ℕ
  lim : Option ℕ
deriving DecidableEq

/-- Construction `db.query(Home)`: all stored rows, no offset, no limit. -/
def Query.ofDB (st : DBState) : Query := ⟨st.homes, 0, none⟩

/-- Query method `.offset(n)`. -/
def Query.offset (q : Query) (n : ℕ) : Query := ⟨q.rows, n, q.lim⟩

/-- Query method `.limit(n)`. -/
def Query.limit (q : Query) (n : ℕ) : Query := ⟨q.rows, q.off, some n⟩

/-- Query method `.order_by(key)` for an ascending numeric key, as in
`order_by(func.abs(Home.medv - target))`: the rows are rearranged into
ascending key order.  SQLite leaves the order of key ties unspecified; a
stable merge sort realises one admissible order. -/
def Query.order_by (q : Query) (key : Home → ℚ) : Query :=
  ⟨q.rows.mergeSort (fun a b => decide (key a ≤ key b)), q.off, q.lim⟩

/-- Query method `.all()`: materialise the rows, applying the offset and
then the limit. -/
def Query.all (q : Query) : List Home :=
  match q.lim with
  | none => q.rows.drop q.off
  | some n => (q.rows.drop q.off).take n

/-- Python 3 `round` to the nearest integer, halves to even. -/
def pyRound (x : ℚ) : ℤ :=
  let f : ℤ := ⌊x⌋
  if x - f < 1/2 then f
  else if 1/2 < x - f then f + 1
  else if f % 2 = 0 then f else f + 1

/-- Python `round(x, 1)`: rounding to one decimal place. -/
def pyRound1 (x : ℚ) : ℚ := ((pyRound (x * 10) : ℤ) : ℚ) / 10

/-- Route `POST /predict/` (`main.py` lines 100-110): the seven features are
passed in a fixed order to the model, the scalar prediction is scaled to a
dollar price, rounded to one decimal place, and scaled to dirhams. -/
def predict_price (model : List ℚ → ℚ) (home : HomeBase) : Prediction :=
  let vals := [home.rm, home.lstat, home.dis, home.tax, home.ptratio,
    home.age, home.indus]
  let pred := model vals
  let dollar_price := pred * 1000
  let dirham_price := pyRound1 dollar_price * 10
  ⟨dirham_price⟩

/-- A `POST /predict/` request body as sent by a client: the seven features,
plus an optional `medv` field that the `HomeBase` schema does not declare. -/
structure PredictBody where
  rm : ℚ
  lstat : ℚ
  dis : ℚ
  tax : ℚ
  ptratio : ℚ
  age : ℚ
  indus : ℚ
  medv : Option ℚ
deriving DecidableEq

/-- Pydantic validation of a request body against `HomeBase`: the seven
declared fields are kept and the undeclared `medv` is dropped. -/
def parseHomeBase (b : PredictBody) : HomeBase :=
  ⟨b.rm, b.lstat, b.dis, b.tax, b.ptratio, b.age, b.indus⟩

/-- The `/predict/` route as reached by a raw request body. -/
def handlePredict (model : List ℚ → ℚ) (b : PredictBody) : Prediction :=
  predict_price model (parseHomeBase b)

/-- A `Home` row built from a create payload once the database assigns id
`i` (`Home(**home.dict())` followed by the `INSERT`). -/
def mkHome (i : ℕ) (r : HomeCreate) : Home :=
  ⟨i, r.rm, r.lstat, r.dis, r.tax, r.ptratio, r.age, r.indus, r.medv⟩

/-- Insertion of one staged row: the database appends it with the next
surrogate id. -/
def insertRow (st : DBState) (r : HomeCreate) : Home × DBState :=
  let db_home := mkHome st.nextId r
  (db_home, ⟨st.homes ++ [db_home], st.nextId + 1⟩)

/-- Route `POST /homes/` (`main.py` lines 85-92): store the new record and
return it, refreshed with its assigned id. -/
def create_home (home : HomeCreate) (st : DBState) : Home × DBState :=
  insertRow st home

/-- Route `GET /homes/` (`main.py` lines 95-97):
`db.query(Home).offset(skip).limit(limit).all()`. -/
def list_homes (skip limit : ℕ) (st : DBState) : List Home :=
  (((Query.ofDB st).offset skip).limit limit).all

/-- Conversion of a dirham price back to the `medv` scale (`main.py` lines
120-122): divide by 1000, then by 10. -/
def recTarget (price : ℚ) : ℚ := price / 1000 / 10

/-- Sort key of the recommendation query: the absolute difference between a
stored row's `medv` and the converted target. -/
def recKey (target : ℚ) (h : Home) : ℚ := |h.medv - target|

/-- Route `GET /recommendation/` (`main.py` lines 113-126): order the stored
rows by ascending distance of `medv` from the converted target, keep at most
`limit` of them, and answer 404 when that result is empty. -/
def recommendation (price : ℚ) (limit : ℕ) (st : DBState) :
    Except HTTPError (List Home) :=
  let target := recTarget price
  let homes := (((Query.ofDB st).order_by (recKey target)).limit limit).all
  if homes.isEmpty then
    .error ⟨404, "No homes found for recommendation"⟩
  else
    .ok homes

/-- Insertion of a staged batch, row by row (the effect of a successful
`session.commit` after `session.add` of every row). -/
def insertAll (st : DBState) (rows : List HomeCreate) : DBState :=
  rows.foldl (fun s r => (insertRow s r).2) st

/-- What the loader prints to the operator. -/
inductive LoadReport where
  | ok (count : ℕ) : LoadReport
  | error (msg : String) : LoadReport
deriving DecidableEq

/-- The loader's batch insert (`load_data.py` lines 40-60): every row is
staged with `session.add`, then a single `session.commit` applies the whole
batch.  Whether the commit succeeds is abstracted by an oracle `fail` on the
staged rows: on failure `session.rollback` leaves the table untouched and an
error is reported, on success every row is appended and a count is
reported. -/
def load_data (rows : List HomeCreate) (fail : HomeCreate → Bool)
    (st : DBState) : DBState × LoadReport :=
  if rows.any fail then
    (st, .error "Error inserting records")
  else
    (insertAll st rows, .ok rows.length)

/-- One client-visible operation of the system.  Only `create` and `load`
write to storage; the list, predict and recommendation requests only read. -/
inductive Op where
  | create (home : HomeCreate)
  | load (rows : List HomeCreate) (fail : HomeCreate → Bool)
  | listH (skip limit : ℕ)
  | predictH (body : PredictBody)
  | recommendH (price : ℚ) (limit : ℕ)

/-- Effect of one operation on storage. -/
def applyOp (st : DBState) (op : Op) : DBState :=
  match op with
  | .create home => (create_home home st).2
  | .load rows fail => (load_data rows fail st).1
  | .listH _ _ => st
  | .predictH _ => st
  | .recommendH _ _ => st

/-- The initial state: an empty `homes` table; SQLite assigns rowids
starting at 1. -/
def initState : DBState := ⟨[], 1⟩

/-- The state reached after a sequence of operations. -/
def exec (ops : List Op) : DBState := ops.foldl applyOp initState

/-- Storage invariant: every stored id is below the next id the database
will assign, and stored ids are pairwise distinct. -/
def WF (st : DBState) : Prop :=
  (∀ h ∈ st.homes, h.id < st.nextId) ∧
    st.homes.Pairwise (fun a b => a.id ≠ b.id)

/-- The eight non-id attributes of a stored row. -/
def fieldsOfHome (h : Home) : ℚ × ℚ × ℚ × ℚ × ℚ × ℚ × ℚ × ℚ :=
  (h.rm, h.lstat, h.dis, h.tax, h.ptratio, h.age, h.indus, h.medv)

/-- The eight attributes of a create payload. -/
def fieldsOfCreate (r : HomeCreate) : ℚ × ℚ × ℚ × ℚ × ℚ × ℚ × ℚ × ℚ :=
  (r.rm, r.lstat, r.dis, r.tax, r.ptratio, r.age, r.indus, r.medv)

/-- The rows a batch becomes when the database numbers them from id `i`. -/
def numberFrom (i : ℕ) : List HomeCreate → List Home
  | [] => []
  | r :: rs => mkHome i r :: numberFrom (i + 1) rs

lemma insertAll_homes (rows : List HomeCreate) :
    ∀ st : DBState, (insertAll st rows).homes =
      st.homes ++ numberFrom st.nextId rows := by
  induction rows with
  | nil => intro st; simp [insertAll, numberFrom]
  | cons r rs ih =>
    intro st
    show (insertAll (insertRow st r).2 rs).homes = _
    rw [ih]
    simp [insertRow, numberFrom]

lemma insertAll_nextId (rows : List HomeCreate) :
    ∀ st : DBState, (insertAll st rows).nextId = st.nextId + rows.length := by
  induction rows with
  | nil => intro st; simp [insertAll]
  | cons r rs ih =>
    intro st
    show (insertAll (insertRow st r).2 rs).nextId = _
    rw [ih]
    simp [insertRow]
    omega

lemma numberFrom_map_fields (rows : List HomeCreate) :
    ∀ i : ℕ, (numberFrom i rows).map fieldsOfHome = rows.map fieldsOfCreate := by
  induction rows with
  | nil => intro i; simp [numberFrom]
  | cons r rs ih => intro i; simp [numberFrom, ih]; rfl

lemma mem_numberFrom_id (rows : List HomeCreate) :
    ∀ (i : ℕ) (h : Home), h ∈ numberFrom i rows →
      i ≤ h.id ∧ h.id < i + rows.length := by
  induction rows with
  | nil => intro i h hh; simp [numberFrom] at hh
  | cons r rs ih =>
    intro i h hh
    simp only [numberFrom, List.mem_cons] at hh
    rcases hh with hh | hh
    · subst hh; simp [mkHome]
    · have := ih (i + 1) h hh
      constructor <;> [omega; (simp only [List.length_cons]; omega)]

lemma numberFrom_pairwise (rows : List HomeCreate) :
    ∀ i : ℕ, (numberFrom i rows).Pairwise (fun a b => a.id ≠ b.id) := by
  induction rows with
  | nil => intro i; simp [numberFrom]
  | cons r rs ih =>
    intro i
    refine List.Pairwise.cons ?_ (ih (i + 1))
    intro b hb
    have := (mem_numberFrom_id rs (i + 1) b hb).1
    simp only [mkHome]
    omega

lemma WF_insertAll (rows : List HomeCreate) (st : DBState) (hwf : WF st) :
    WF (insertAll st rows) := by
  constructor
  · intro h hh
    rw [insertAll_homes] at hh
    rw [insertAll_nextId]
    rcases List.mem_append.mp hh with hh | hh
    · have := hwf.1 h hh; omega
    · have := (mem_numberFrom_id rows st.nextId h hh).2; omega
  · rw [insertAll_homes]
    refine List.pairwise_append.mpr ⟨hwf.2, numberFrom_pairwise rows st.nextId, ?_⟩
    intro a ha b hb
    have h1 := hwf.1 a ha
    have h2 := (mem_numberFrom_id rows st.nextId b hb).1
    omega

lemma WF_applyOp (st : DBState) (op : Op) (hwf : WF st) : WF (applyOp st op) := by
  cases op with
  | create home => exact WF_insertAll [home] st hwf
  | load rows fail =>
    show WF (load_data rows fail st).1
    by_cases h : rows.any fail
    · simpa [load_data, h] using hwf
    · simpa [load_data, h] using WF_insertAll rows st hwf
  | listH skip limit => exact hwf
  | predictH body => exact hwf
  | recommendH price limit => exact hwf

lemma WF_foldl (ops : List Op) :
    ∀ st : DBState, WF st → WF (ops.foldl applyOp st) := by
  induction ops with
  | nil => intro st hwf; exact hwf
  | cons op ops ih => intro st hwf; exact ih (applyOp st op) (WF_applyOp st op hwf)

lemma WF_initState : WF initState := by
  constructor
  · intro h hh; simp [initState] at hh
  · simp [initState]

lemma WF_exec (ops : List Op) : WF (exec ops) :=
  WF_foldl ops initState WF_initState

lemma recommendation_eq (price : ℚ) (limit : ℕ) (st : DBState) :
    recommendation price limit st =
      if ((st.homes.mergeSort fun a b =>
            decide (recKey (recTarget price) a ≤ recKey (recTarget price) b)
          ).take limit).isEmpty
      then .error ⟨404, "No homes found for recommendation"⟩
      else .ok ((st.homes.mergeSort fun a b =>
            decide (recKey (recTarget price) a ≤ recKey (recTarget price) b)
          ).take limit) := by
  simp [recommendation, Query.ofDB, Query.order_by, Query.limit, Query.all]

/-- C2: for every target price and every limit, the recommendation endpoint
on a storage containing no records answers the 404 error with detail
"No homes found for recommendation" rather than an empty success list. -/
theorem recommendation_empty_storage_404 (price : ℚ) (limit n : ℕ) :
    recommendation price limit ⟨[], n⟩ =
      .error ⟨404, "No homes found for recommendation"⟩ := by
  simp [recommendation, Query.ofDB, Query.order_by, Query.limit, Query.all]

/-- C10: for every storage state and every target price, the recommendation
endpoint called with limit 0 answers the 404 error, because the emptiness
check is applied to the limited query result, not to storage. -/
theorem recommendation_limit_zero_404 (price : ℚ) (st : DBState) :
    recommendation price 0 st =
      .error ⟨404, "No homes found for recommendation"⟩ := by
  simp [recommendation, Query.ofDB, Query.order_by, Query.limit, Query.all]

/-- C3: for every model and every feature set, the predict endpoint's
`predicted_price_dh` equals the model's scalar prediction multiplied by
1000, rounded to one decimal place, then multiplied by 10. -/
theorem predict_price_formula (model : List ℚ → ℚ) (home : HomeBase) :
    (predict_price model home).predicted_price_dh =
      pyRound1 (model [home.rm, home.lstat, home.dis, home.tax, home.ptratio,
        home.age, home.indus] * 1000) * 10 := rfl

/-- C4: the recommendation endpoint's input conversion is the exact inverse
of the predict endpoint's output conversion without its rounding step: a
price equal to `v * 1000 * 10` converts back to exactly `v`. -/
theorem recTarget_inverse (v : ℚ) : recTarget (v * 1000 * 10) = v := by
  unfold recTarget
  ring

/-- C7: the predict endpoint passes the seven features to the model in the
fixed order [rm, lstat, dis, tax, ptratio, age, indus], and a `medv` field
present in the request body is ignored: the prediction is identical with or
without it. -/
theorem predict_feature_order_and_medv_ignored (model : List ℚ → ℚ)
    (b : PredictBody) :
    (handlePredict model b).predicted_price_dh =
      pyRound1 (model [b.rm, b.lstat, b.dis, b.tax, b.ptratio, b.age,
        b.indus] * 1000) * 10
    ∧ ∀ m : Option ℚ,
        handlePredict model
            ⟨b.rm, b.lstat, b.dis, b.tax, b.ptratio, b.age, b.indus, m⟩ =
          handlePredict model b :=
  ⟨rfl, fun _ => rfl⟩

/-- C6: for every storage state and all non-negative `skip` and `limit`,
the list endpoint returns exactly the slice of the stored records in
storage's natural order obtained by dropping the first `skip` records and
taking at most `limit`; its length is `min limit (length - skip)`, each
position `i < limit` holds the stored record at position `skip + i`, and an
empty slice comes back as an empty sequence, not an error. -/
theorem list_homes_slice (st : DBState) (skip limit : ℕ) :
    list_homes skip limit st = (st.homes.drop skip).take limit
    ∧ (list_homes skip limit st).length = min limit (st.homes.length - skip)
    ∧ (∀ i, i < limit → (list_homes skip limit st)[i]? = st.homes[skip + i]?)
    ∧ (st.homes.length ≤ skip → list_homes skip limit st = []) := by
  refine ⟨rfl, ?_, ?_, ?_⟩
  · simp [list_homes, Query.ofDB, Query.offset, Query.limit, Query.all]
  · intro i hi
    show ((st.homes.drop skip).take limit)[i]? = st.homes[skip + i]?
    rw [List.getElem?_take_of_lt hi, List.getElem?_drop]
  · intro h
    show ((st.homes.drop skip).take limit) = []
    rw [List.drop_eq_nil_of_le h, List.take_nil]

/-- C8: the loader's batch insert is all-or-nothing: if the commit fails,
the table is left exactly as it was and an error is reported to the
operator; on success exactly one row per input record is appended after the
existing content, in order and with values preserved — never truncated or
upserted. -/
theorem load_data_atomic (rows : List HomeCreate) (fail : HomeCreate → Bool)
    (st : DBState) :
    (rows.any fail = true →
      load_data rows fail st = (st, .error "Error inserting records"))
    ∧ (rows.any fail = false →
      (load_data rows fail st).2 = .ok rows.length
      ∧ (load_data rows fail st).1.homes.take st.homes.length = st.homes
      ∧ ((load_data rows fail st).1.homes.drop st.homes.length).map
          fieldsOfHome = rows.map fieldsOfCreate) := by
  constructor
  · intro h
    simp [load_data, h]
  · intro h
    have hins : (load_data rows fail st).1 = insertAll st rows := by
      simp [load_data, h]
    refine ⟨by simp [load_data, h], ?_, ?_⟩
    · rw [hins, insertAll_homes, List.take_left]
    · rw [hins, insertAll_homes, List.drop_left, numberFrom_map_fields]

/-- C9: after any sequence of operations of the service, the stored ids are
pairwise distinct — an id once assigned is never assigned again, and since
no operation updates or deletes a record every assigned id stays stored and
below the next id the database will hand out. -/
theorem exec_ids_unique (ops : List Op) :
    ((exec ops).homes.map Home.id).Nodup
    ∧ ∀ h ∈ (exec ops).homes, h.id < (exec ops).nextId := by
  have hwf := WF_exec ops
  refine ⟨?_, hwf.1⟩
  show ((exec ops).homes.map Home.id).Pairwise (· ≠ ·)
  rw [List.pairwise_map]
  exact hwf.2

/-- C5: a record created via the create endpoint is immediately retrievable
via the list endpoint (the slice at its position returns exactly the new
record), its eight non-id fields equal the submitted payload, and its id
differs from every previously assigned id. -/
theorem create_then_list (home : HomeCreate) (st : DBState) (hwf : WF st) :
    list_homes st.homes.length 1 (create_home home st).2 =
      [(create_home home st).1]
    ∧ fieldsOfHome (create_home home st).1 = fieldsOfCreate home
    ∧ ∀ g ∈ st.homes, (create_home home st).1.id ≠ g.id := by
  refine ⟨?_, rfl, ?_⟩
  · show ((((create_home home st).2.homes).drop st.homes.length).take 1) = _
    show ((st.homes ++ [mkHome st.nextId home]).drop st.homes.length).take 1 = _
    rw [List.drop_left]
    rfl
  · intro g hg
    have := hwf.1 g hg
    show st.nextId ≠ g.id
    omega

/-- Concrete payload used to witness the create/list round-trip. -/
def wHome : HomeCreate := ⟨⟨6, 5, 4, 300, 15, 60, 7⟩, 24⟩

/-- Concrete one-row storage state used to witness the round-trip. -/
def wSt : DBState := ⟨[⟨1, 1, 1, 1, 1, 1, 1, 1, 20⟩], 2⟩

/-- Witness for C5 at a concrete payload and state. -/
theorem create_then_list_witness :
    list_homes wSt.homes.length 1 (create_home wHome wSt).2 =
      [(create_home wHome wSt).1]
    ∧ fieldsOfHome (create_home wHome wSt).1 = fieldsOfCreate wHome
    ∧ ∀ g ∈ wSt.homes, (create_home wHome wSt).1.id ≠ g.id :=
  create_then_list wHome wSt
    (by exact ⟨by decide, by simp [wSt]⟩)

/-- Concrete two-row storage state used to witness the recommendation
ordering. -/
def wSt2 : DBState := ⟨[⟨1, 1, 1, 1, 1, 1, 1, 1, 20⟩,
  ⟨2, 2, 2, 2, 2, 2, 2, 2, 25⟩], 3⟩

/-- C1: against non-empty storage, for every target price and positive
limit, the recommendation endpoint succeeds with a sequence sorted by
ascending absolute difference between each record's `medv` and the
converted target, and the stored records split into the returned ones and
the excluded ones with no returned record farther from the target than any
excluded record. -/
theorem recommendation_sorted_minimal (st : DBState) (price : ℚ)
    (limit : ℕ) (hne : st.homes ≠ []) (hpos : 0 < limit) :
    ∃ returned excluded : List Home,
      recommendation price limit st = .ok returned
      ∧ returned.Pairwise (fun a b =>
          recKey (recTarget price) a ≤ recKey (recTarget price) b)
      ∧ st.homes.Perm (returned ++ excluded)
      ∧ ∀ a ∈ returned, ∀ b ∈ excluded,
          recKey (recTarget price) a ≤ recKey (recTarget price) b := by
  have trans : ∀ a b c : Home,
      (decide (recKey (recTarget price) a ≤ recKey (recTarget price) b)) →
      (decide (recKey (recTarget price) b ≤ recKey (recTarget price) c)) →
      (decide (recKey (recTarget price) a ≤ recKey (recTarget price) c)) := by
    intro a b c hab hbc
    simp only [decide_eq_true_eq] at *
    exact le_trans hab hbc
  have total : ∀ a b : Home,
      (decide (recKey (recTarget price) a ≤ recKey (recTarget price) b)) ||
      (decide (recKey (recTarget price) b ≤ recKey (recTarget price) a)) := by
    intro a b
    simp only [Bool.or_eq_true, decide_eq_true_eq]
    exact le_total _ _
  have hperm := List.mergeSort_perm st.homes fun a b =>
    decide (recKey (recTarget price) a ≤ recKey (recTarget price) b)
  have hsorted := List.sorted_mergeSort trans total st.homes
  have hsorted' : (st.homes.mergeSort fun a b =>
      decide (recKey (recTarget price) a ≤ recKey (recTarget price) b)
      ).Pairwise (fun a b =>
        recKey (recTarget price) a ≤ recKey (recTarget price) b) :=
    hsorted.imp fun h => of_decide_eq_true h
  refine ⟨(st.homes.mergeSort fun a b =>
      decide (recKey (recTarget price) a ≤ recKey (recTarget price) b)
      ).take limit,
    (st.homes.mergeSort fun a b =>
      decide (recKey (recTarget price) a ≤ recKey (recTarget price) b)
      ).drop limit, ?_, ?_, ?_, ?_⟩
  · have htake : ((st.homes.mergeSort fun a b =>
        decide (recKey (recTarget price) a ≤ recKey (recTarget price) b)
        ).take limit) ≠ [] := by
      have hlen : 0 < ((st.homes.mergeSort fun a b =>
          decide (recKey (recTarget price) a ≤ recKey (recTarget price) b)
          ).take limit).length := by
        rw [List.length_take, hperm.length_eq]
        have := List.length_pos.mpr hne
        omega
      exact List.length_pos.mp hlen
    rw [recommendation_eq]
    rw [if_neg (by simpa using htake)]
  · exact List.Pairwise.sublist (List.take_sublist limit _) hsorted'
  · rw [List.take_append_drop]
    exact hperm.symm
  · have := hsorted'
    rw [← List.take_append_drop limit (st.homes.mergeSort fun a b =>
      decide (recKey (recTarget price) a ≤ recKey (recTarget price) b))] at this
    exact (List.pairwise_append.mp this).2.2

/-- Witness for C1 at a concrete two-row storage, price 2400 and limit 1. -/
theorem recommendation_sorted_minimal_witness :
    ∃ returned excluded : List Home,
      recommendation 2400 1 wSt2 = .ok returned
      ∧ returned.Pairwise (fun a b =>
          recKey (recTarget 2400) a ≤ recKey (recTarget 2400) b)
      ∧ wSt2.homes.Perm (returned ++ excluded)
      ∧ ∀ a ∈ returned, ∀ b ∈ excluded,
          recKey (recTarget 2400) a ≤ recKey (recTarget 2400) b :=
  recommendation_sorted_minimal wSt2 2400 1 (by decide) (by decide)

end BostonHousing
